import Mathlib

/-!
Shallow embedding of `dirhash` (src/main.rs) and verification of its
natural-language specification.

Conventions of the embedding:
* Rust `u8` values are `Nat`s; where Rust release-mode arithmetic wraps,
  the embedding takes the result `% 256` explicitly.
* Rust `&str` values are `List Char`; `str::len` (a byte count) is
  `utf8Len`, the sum of the UTF-8 sizes of the characters.
* Fallible Rust functions returning `anyhow::Result` become
  `Except String`; a `panic` (from `.unwrap()` / `.expect`) is modelled
  as an `Except.error` that the surrounding model never recovers from.
* `cfg!(windows)` is the Unix build: `cfgWindows = false`.
* I/O is passed explicitly: the bytes standard input holds, a file's
  metadata, the XOF output stream of the hash primitive (`Nat → Nat`,
  byte at offset), and the per-path open/hash outcome during a walk.
-/

namespace Dirhash

/-- Rust `u8` values, kept as `Nat` with explicit `% 256` where Rust wraps. -/
abbrev Byte := Nat

/-- `blake3::OUT_LEN`. -/
def OUT_LEN : Nat := 32

/-- `blake3::KEY_LEN`. -/
def KEY_LEN : Nat := 32

/-- `blake3::guts::BLOCK_LEN`. -/
def BLOCK_LEN : Nat := 64

/-- `cfg!(windows)`: this development models the Unix build of the program. -/
def cfgWindows : Bool := false

/-- The Unicode replacement character U+FFFD tested by
`check_for_invalid_characters` (src/main.rs:416; the char literal appears
transcoded in this copy of the source, but the surrounding comment and the
error message `Unicode replacement character in path` identify it). -/
def replacementChar : Char := '�'

/-- Rust `char::is_ascii`. -/
def isAscii (c : Char) : Bool := c.toNat < 128

/-- Rust `str::len`: the UTF-8 byte length of a list of characters. -/
def utf8Len (s : List Char) : Nat := (s.map Char.utf8Size).sum

/-- `hex_half_byte`, src/main.rs:390-400.  The source computes
`c as u8 - 48` for `'0'..='9'` and `c as u8 - 107` for `'a'..='f'`;
Rust release-mode `u8` subtraction wraps mod 256, so `'a'` (97) maps to
`(97 - 107) mod 256 = 246`.  The wrap is written out explicitly. -/
def hex_half_byte (c : Char) : Except String Byte :=
  if 48 ≤ c.toNat ∧ c.toNat ≤ 57 then .ok ((c.toNat + 256 - 48) % 256)
  else if 97 ≤ c.toNat ∧ c.toNat ≤ 102 then .ok ((c.toNat + 256 - 107) % 256)
  else .error "Invalid hex"

/-- The hash-hex decoding loop of `parse_check_line`, src/main.rs:483-489:
two characters per byte, `16 * high + low` in wrapping `u8` arithmetic.
The source walks exactly 64 characters (32 bytes); the odd-length case is
unreachable there. -/
def decode_hex_pairs : List Char → Except String (List Byte)
  | [] => .ok []
  | [_] => .error "odd hex length"
  | hi :: lo :: rest =>
    match hex_half_byte hi with
    | .error e => .error e
    | .ok h =>
      match hex_half_byte lo with
      | .error e => .error e
      | .ok l =>
        match decode_hex_pairs rest with
        | .error e => .error e
        | .ok bs => .ok ((16 * h + l) % 256 :: bs)

/-- `unescape`, src/main.rs:431-446.  The source's `while let` loop over
`path.find` is rendered as structural recursion: the text before the first
backslash is copied verbatim, a backslash must be followed by `n` or `\`
(the pair is consumed), and a trailing or otherwise-followed backslash is
an error. -/
def unescape : List Char → Except String (List Char)
  | [] => .ok []
  | c :: rest =>
    if c = '\\' then
      match rest with
      | [] => .error "Invalid backslash escape"
      | c2 :: rest2 =>
        if c2 = 'n' then
          match unescape rest2 with
          | .error e => .error e
          | .ok u => .ok ('\n' :: u)
        else if c2 = '\\' then
          match unescape rest2 with
          | .error e => .error e
          | .ok u => .ok ('\\' :: u)
        else .error "Invalid backslash escape"
    else
      match unescape rest with
      | .error e => .error e
      | .ok u => .ok (c :: u)

/-- `check_for_invalid_characters`, src/main.rs:407-429. -/
def check_for_invalid_characters (utf8_path : List Char) : Except String Unit :=
  if utf8_path.contains (Char.ofNat 0) then .error "Null character in path"
  else if utf8_path.contains replacementChar then
    .error "Unicode replacement character in path"
  else if cfgWindows && utf8_path.contains '\\' then .error "Backslash in path"
  else .ok ()

/-- `str::trim_end_matches('\n')` in `parse_check_line`, src/main.rs:458. -/
def trimEndNewlines (s : List Char) : List Char :=
  (s.reverse.dropWhile (fun c => c = '\n')).reverse

/-- `hash_hex_len = 2 * blake3::OUT_LEN`, src/main.rs:474. -/
def hash_hex_len : Nat := 2 * OUT_LEN

/-- `prefix_len = hash_hex_len + 2`, src/main.rs:475. -/
def prefix_len : Nat := hash_hex_len + 2

/-- `ParsedCheckLine`, src/main.rs:448-454. -/
structure ParsedCheckLine where
  file_string : List Char
  is_escaped : Bool
  file_path : List Char
  expected_hash : List Byte
deriving DecidableEq, Repr

/-- The body of `parse_check_line` after the leading backslash has been
recognised and stripped, src/main.rs:471-506: length ensure, ASCII ensure,
two-space ensure, hex decode, optional unescape, safety filter. -/
def parse_body (is_escaped : Bool) (line : List Char) : Except String ParsedCheckLine :=
  if utf8Len line ≤ prefix_len then .error "Short line"
  else if (line.take prefix_len).all isAscii = false then .error "Non-ASCII prefix"
  else if (line.drop hash_hex_len).take 2 ≠ [' ', ' '] then .error "Invalid space"
  else
    match decode_hex_pairs (line.take hash_hex_len) with
    | .error e => .error e
    | .ok hash_bytes =>
      match (if is_escaped then unescape (line.drop prefix_len)
             else .ok (line.drop prefix_len)) with
      | .error e => .error e
      | .ok file_path_string =>
        match check_for_invalid_characters file_path_string with
        | .error e => .error e
        | .ok _ =>
          .ok ⟨line.drop prefix_len, is_escaped, file_path_string, hash_bytes⟩

/-- `parse_check_line`, src/main.rs:456-506: trim trailing newlines, reject
the empty line, recognise a leading backslash as the escape marker. -/
def parse_check_line (line0 : List Char) : Except String ParsedCheckLine :=
  match trimEndNewlines line0 with
  | [] => .error "Empty line"
  | first :: rest =>
    if first = '\\' then parse_body true rest
    else parse_body false (first :: rest)

/-- `filepath_to_string`, src/main.rs:371-388.  Despite the comment
`returns (string, did_escape)` in the source, the function as written
returns only the escape flag: whether the (Windows-normalised) path text
contains a backslash or a newline.  The lossy UTF-8 conversion is outside
the model: paths are already text here. -/
def filepath_to_string (filepath : List Char) : Bool :=
  let filepath_string :=
    if cfgWindows then filepath.map (fun c => if c = '\\' then '/' else c)
    else filepath
  filepath_string.contains '\\' || filepath_string.contains '\n'

/-- The file metadata `maybe_memmap_file` inspects, src/main.rs:304-305:
whether the target is a regular file, and its size in bytes (`u64`). -/
structure Metadata where
  is_file : Bool
  len : Nat
deriving DecidableEq, Repr

/-- `isize::max_value() as u64` on a 64-bit platform, src/main.rs:308. -/
def isizeMaxU64 : Nat := 2 ^ 63 - 1

/-- `maybe_memmap_file`, src/main.rs:303-324: `none` when mapping is
declined (not a regular file, too long to map, empty, or under 16 KiB),
otherwise the length the map is fixed at.  A failure of the mmap syscall
itself propagates as an error in the source and is not modelled. -/
def maybe_memmap_file (m : Metadata) : Option Nat :=
  if m.is_file = false ∨ isizeMaxU64 < m.len ∨ m.len = 0 ∨ m.len < 16 * 1024 then
    none
  else
    some m.len

/-- The three byte-source strategies of `enum Input`, src/main.rs:213-217. -/
inductive InputKind where
  | Mmap (len : Nat)
  | File
  | Stdin
deriving DecidableEq, Repr

/-- `Input::open`, src/main.rs:223-237.  `is_dash` is whether the path is
the sentinel `-`; a file that fails to open propagates its I/O error in
the source and is abstracted here as a successfully opened file described
by `meta`. -/
def Input_open (is_dash keyed no_mmap : Bool) (meta : Metadata) :
    Except String InputKind :=
  if is_dash then
    if keyed then .error "Cannot open `-` in keyed mode"
    else .ok .Stdin
  else if no_mmap = false then
    match maybe_memmap_file meta with
    | some len => .ok (.Mmap len)
    | none => .ok .File
  else .ok .File

/-- `read_key_from_stdin`, src/main.rs:349-363: read at most
`KEY_LEN + 1 = 33` bytes from standard input, then demand exactly 32.
`stdin` is the full byte content standard input would deliver. -/
def read_key_from_stdin (stdin : List Byte) : Except String (List Byte) :=
  let bytes := stdin.take (KEY_LEN + 1)
  let n := bytes.length
  if n < 32 then .error "expected 32 key bytes from stdin, found fewer"
  else if n > 32 then .error "read too many bytes from stdin, expected 32"
  else .ok (bytes.take KEY_LEN)

/-- The three mutually exclusive hasher constructions of `Args::parse`,
src/main.rs:150-158. -/
inductive HasherMode where
  | Keyed (key : List Byte)
  | DeriveKey (context : List Char)
  | Standard
deriving DecidableEq, Repr

/-- The `base_hasher` selection in `Args::parse`, src/main.rs:150-158:
keyed mode reads the key from standard input before anything else; its
failure aborts argument parsing (and hence the whole run). -/
def base_hasher_of_args (keyed : Bool) (derive_key : Option (List Char))
    (stdin : List Byte) : Except String HasherMode :=
  if keyed then
    match read_key_from_stdin stdin with
    | .error e => .error e
    | .ok key => .ok (.Keyed key)
  else
    match derive_key with
    | some context => .ok (.DeriveKey context)
    | none => .ok .Standard

/-- One lowercase hex digit, as produced by `hex::encode`. -/
def hexDigit (n : Nat) : Char :=
  if n < 10 then Char.ofNat (48 + n) else Char.ofNat (87 + n)

/-- The two lowercase hex characters of one byte. -/
def hexByte (b : Byte) : List Char := [hexDigit (b / 16), hexDigit (b % 16)]

/-- `hex::encode` (lowercase) over a byte sequence. -/
def hexEncode : List Byte → List Char
  | [] => []
  | b :: bs => hexByte b ++ hexEncode bs

/-- One `OutputReader::fill` call in `write_hex_output`: the
`BLOCK_LEN = 64` bytes of the XOF stream starting at `start`. -/
def streamBlock (stream : Nat → Byte) (start : Nat) : List Byte :=
  (List.range BLOCK_LEN).map (fun i => stream (start + i))

/-- The loop of `write_hex_output`, src/main.rs:331-337: while bytes
remain, fill a 64-byte block from the reader, hex-encode it, and keep
`2 * min len 64` characters. -/
def write_hex_go (stream : Nat → Byte) (start len : Nat) : List Char :=
  if len = 0 then []
  else
    (hexEncode (streamBlock stream start)).take (2 * min len BLOCK_LEN) ++
      write_hex_go stream (start + BLOCK_LEN) (len - min len BLOCK_LEN)
termination_by len
decreasing_by
  simp only [BLOCK_LEN]
  omega

/-- `write_hex_output`, src/main.rs:326-339: `len` is the requested output
length `args.len()`, `stream` the finalized XOF output stream. -/
def write_hex_output (len : Nat) (stream : Nat → Byte) : List Char :=
  write_hex_go stream 0 len

/-- `hash_one_input`, src/main.rs:508-524.  `open_and_hash` is the
combined outcome of `Input::open(path, args)` and `input.hash(args)` for
the given path.  The source calls `.unwrap()` on both (src/main.rs:509-510),
so an I/O error panics; the panic is the propagated `Except.error`.
The `--raw` / `--no-names` printing branches only affect the console and
are elided; the returned value is the hex digest string. -/
def hash_one_input (open_and_hash : Except String (Nat → Byte)) (len : Nat) :
    Except String (List Char) :=
  match open_and_hash with
  | .error e => .error e
  | .ok stream => .ok (write_hex_output len stream)

/-- The hashing branch of the directory walk in `main`, src/main.rs:606-629:
each regular file met by the walk is hashed by `hash_one_input` and
inserted into the manifest.  `entries` pairs each walked path with its
open/hash outcome.  Because `hash_one_input` unwraps, the first failing
entry aborts the whole loop (the error propagates); no failure flag is
recorded in this branch. -/
def main_hash_walk (entries : List (String × Except String (Nat → Byte)))
    (len : Nat) : Except String (List (String × List Char)) :=
  match entries with
  | [] => .ok []
  | (path, r) :: rest =>
    match hash_one_input r len with
    | .error e => .error e
    | .ok h =>
      match main_hash_walk rest len with
      | .error e => .error e
      | .ok tl => .ok ((path, h) :: tl)

/-- The two categories `hash_verify` reports, src/main.rs:689-705. -/
inductive VerifyOutcome where
  | NoExist
  | Mismatch
deriving DecidableEq, Repr

/-- The per-key classification of the `hash_verify` matching loop,
src/main.rs:689-705: a key absent from the input manifest is `NoExist`,
a differing digest string is `Mismatch`, an equal digest prints nothing. -/
def verify_classify (list_input : String → Option String) (path hash : String) :
    Option VerifyOutcome :=
  match list_input path with
  | none => some .NoExist
  | some h => if h ≠ hash then some .Mismatch else none

/-- The full report of the `hash_verify` matching loop over the entries of
the check manifest (`list_check`), src/main.rs:689-705. -/
def hash_verify_report (list_input : String → Option String)
    (list_check : List (String × String)) : List (String × VerifyOutcome) :=
  list_check.filterMap fun e =>
    (verify_classify list_input e.1 e.2).map (fun o => (e.1, o))

/-- Modelled from the spec: the checkfile ENCODER of spec section 4.3.
The source's `filepath_to_string` (src/main.rs:371-388) computes only the
escape flag and no function under src emits a checkfile line, so the
emission is taken from the spec's words: normalise backslashes to slashes
on Windows; if the text contains a backslash or newline, escape every
backslash as two backslashes and every newline as backslash-n and prefix
the whole line with a backslash; emit the 64 lowercase hex characters of
the digest, two spaces, the path text, and a newline. -/
def escape_path : List Char → List Char
  | [] => []
  | '\\' :: r => '\\' :: '\\' :: escape_path r
  | '\n' :: r => '\\' :: 'n' :: escape_path r
  | c :: r => c :: escape_path r

/-- Modelled from the spec: one encoded checkfile line (see `escape_path`). -/
def encode_check_line (digest : List Byte) (path : List Char) : List Char :=
  let path_text :=
    if cfgWindows then path.map (fun c => if c = '\\' then '/' else c)
    else path
  let needs_escape := path_text.contains '\\' || path_text.contains '\n'
  (if needs_escape then ['\\'] else []) ++
    hexEncode digest ++ [' ', ' '] ++
    (if needs_escape then escape_path path_text else path_text) ++ ['\n']

/-- Claim-side predicate: the literal reading of claim C4's last clause —
the text contains a backslash that is the last character or is followed by
a character other than `n` or a backslash, with no regard to which
backslashes begin escape sequences. -/
def literal_bad_escape : List Char → Bool
  | [] => false
  | c :: rest =>
    if c = '\\' then
      match rest with
      | [] => true
      | c2 :: _ =>
        (decide (c2 ≠ 'n') && decide (c2 ≠ '\\')) || literal_bad_escape rest
    else literal_bad_escape rest

/-- Claim-side predicate: failure of the left-to-right escape scan, the
scanning reading of claim C4's last clause.  A backslash must be followed
by `n` or a backslash and consumes that character; a backslash that is the
final remaining character, or is followed by anything else, is an error. -/
def scan_bad_escape : List Char → Bool
  | [] => false
  | c :: rest =>
    if c = '\\' then
      match rest with
      | [] => true
      | c2 :: rest2 =>
        if c2 = 'n' ∨ c2 = '\\' then scan_bad_escape rest2 else true
    else scan_bad_escape rest

/-- Strip one leading backslash (the escape marker of a checkfile line). -/
def stripLeadingBackslash : List Char → List Char
  | [] => []
  | c :: rest => if c = '\\' then rest else c :: rest

/-- An uppercase hex digit `A`-`F`. -/
def is_upper_hex (c : Char) : Bool := 65 ≤ c.toNat && c.toNat ≤ 70

/-- A lowercase hex digit `0`-`9`, `a`-`f`. -/
def is_lower_hex (c : Char) : Bool :=
  (48 ≤ c.toNat && c.toNat ≤ 57) || (97 ≤ c.toNat && c.toNat ≤ 102)

/-- The head of `main`, src/main.rs:594-656, for the hashing mode: the
base hasher is constructed by `Args::parse` (reading the key from standard
input in keyed mode) before the directory walk runs; a parse failure stops
the process before any entry is processed. -/
def main_run (keyed : Bool) (derive_key : Option (List Char)) (stdin : List Byte)
    (entries : List (String × Except String (Nat → Byte))) (len : Nat) :
    Except String (List (String × List Char)) :=
  match base_hasher_of_args keyed derive_key stdin with
  | .error e => .error e
  | .ok _ => main_hash_walk entries len

instance {ε α : Type} [DecidableEq ε] [DecidableEq α] : DecidableEq (Except ε α) :=
  fun a b =>
    match a, b with
    | .error x, .error y =>
      if h : x = y then isTrue (by rw [h]) else
        isFalse (fun hc => by cases hc; exact h rfl)
    | .ok x, .ok y =>
      if h : x = y then isTrue (by rw [h]) else
        isFalse (fun hc => by cases hc; exact h rfl)
    | .error _, .ok _ => isFalse (fun hc => Except.noConfusion hc)
    | .ok _, .error _ => isFalse (fun hc => Except.noConfusion hc)

/-! ## Theorems -/

/-- C1 (code bug): the claim says `hex_half_byte` maps `'0'`-`'9'` to 0-9
and `'a'`-`'f'` to 10-15.  The digit branch and the rejection of every
other character (uppercase included) are as claimed, but the source
subtracts 107 instead of 87 from a lowercase letter, so `'a'` (97) wraps
to 246 and `'f'` (102) to 251 — not 10 and 15 — and every digest byte
with a hex digit in `a`-`f` is decoded to the wrong value. -/
theorem c1_hex_half_byte_letter_bug :
    hex_half_byte '0' = .ok 0 ∧ hex_half_byte '9' = .ok 9 ∧
    hex_half_byte 'a' = .ok 246 ∧ hex_half_byte 'f' = .ok 251 ∧
    (hex_half_byte 'A').isOk = false ∧ (hex_half_byte 'g').isOk = false ∧
    (246 ≠ 10 ∧ 251 ≠ 15) := by
  decide

/-- C3 (code bug): the claim (and the source's own comments at
src/main.rs:620-623) say a file whose opening or hashing fails is reported
and the walk continues, with a nonzero final status.  But `hash_one_input`
calls `.unwrap()` on both `Input::open` and `input.hash`
(src/main.rs:509-510), so the first failing entry panics and aborts the
whole walk: here the second file is never hashed and no manifest is
produced. -/
theorem c3_walk_aborts_on_first_error :
    main_hash_walk
      [("a.txt", .error "permission denied"), ("b.txt", .ok (fun _ => 0))] 32
      = .error "permission denied" := by
  rfl

/-- `maybe_memmap_file` returns `some` exactly at a regular file of
nonzero size of at least 16 KiB and at most `isize::MAX`, and fixes the
map length at the file size. -/
theorem maybe_memmap_file_eq_some_iff (m : Metadata) (l : Nat) :
    maybe_memmap_file m = some l ↔
      m.is_file = true ∧ m.len ≠ 0 ∧ 16 * 1024 ≤ m.len ∧
        m.len ≤ isizeMaxU64 ∧ l = m.len := by
  unfold maybe_memmap_file
  split
  · rename_i h
    constructor
    · intro h'
      cases h'
    · rintro ⟨h1, h2, h3, h4, rfl⟩
      rcases h with h | h | h | h
      · rw [h1] at h
        cases h
      · omega
      · omega
      · omega
  · rename_i h
    push_neg at h
    obtain ⟨h1, h2, h3, h4⟩ := h
    constructor
    · intro h'
      injection h' with h''
      subst h''
      refine ⟨?_, h3, by omega, by omega, rfl⟩
      cases hm : m.is_file
      · exact absurd hm h1
      · rfl
    · rintro ⟨_, _, _, _, rfl⟩
      rfl

/-- C7: for a non-sentinel path, `Input::open` selects the memory-map
strategy if and only if memory mapping is not disabled, the target is a
regular file, and its size is nonzero, at least 16 KiB and at most the
platform's `isize::MAX`, with the map length fixed at the validated size;
in every other case it falls back to the buffered `File` strategy. -/
theorem c7_input_open_strategy (is_dash keyed no_mmap : Bool) (meta : Metadata)
    (hnd : is_dash = false) :
    (∀ l, Input_open is_dash keyed no_mmap meta = .ok (.Mmap l) ↔
      no_mmap = false ∧ meta.is_file = true ∧ meta.len ≠ 0 ∧
        16 * 1024 ≤ meta.len ∧ meta.len ≤ isizeMaxU64 ∧ l = meta.len) ∧
    (¬ (no_mmap = false ∧ meta.is_file = true ∧ meta.len ≠ 0 ∧
        16 * 1024 ≤ meta.len ∧ meta.len ≤ isizeMaxU64) →
      Input_open is_dash keyed no_mmap meta = .ok .File) := by
  subst hnd
  have hfile : Input_open false keyed true meta = .ok .File := rfl
  have hmm : Input_open false keyed false meta =
      (match maybe_memmap_file meta with
        | some len => Except.ok (InputKind.Mmap len)
        | none => Except.ok InputKind.File) := rfl
  constructor
  · intro l
    cases no_mmap with
    | true =>
      rw [hfile]
      constructor
      · intro h'
        exact absurd h' (by simp)
      · rintro ⟨h', -⟩
        cases h'
    | false =>
      rw [hmm]
      cases hm : maybe_memmap_file meta with
      | none =>
        constructor
        · intro h'
          exact absurd h' (by simp)
        · rintro ⟨-, h1, h2, h3, h4, rfl⟩
          rw [(maybe_memmap_file_eq_some_iff meta meta.len).mpr
            ⟨h1, h2, h3, h4, rfl⟩] at hm
          cases hm
      | some l' =>
        rw [maybe_memmap_file_eq_some_iff] at hm
        obtain ⟨h1, h2, h3, h4, h5⟩ := hm
        subst h5
        constructor
        · intro h'
          injection h' with h''
          injection h'' with hlen
          exact ⟨rfl, h1, h2, h3, h4, hlen.symm⟩
        · rintro ⟨-, -, -, -, -, rfl⟩
          rfl
  · intro hneg
    cases no_mmap with
    | true => exact hfile
    | false =>
      rw [hmm]
      cases hm : maybe_memmap_file meta with
      | none => rfl
      | some l' =>
        rw [maybe_memmap_file_eq_some_iff] at hm
        exact absurd ⟨rfl, hm.1, hm.2.1, hm.2.2.1, hm.2.2.2.1⟩ hneg

/-- Witness for C7 at a concrete 16 KiB regular file. -/
theorem c7_witness :
    Input_open false false false ⟨true, 16384⟩ = .ok (.Mmap 16384) :=
  ((c7_input_open_strategy false false false ⟨true, 16384⟩ rfl).1 16384).mpr
    ⟨rfl, rfl, by decide, by decide, by decide, rfl⟩

/-- `read_key_from_stdin` in terms of the length of standard input:
fewer than 32 bytes or more than 32 bytes is an error, exactly 32 returns
them all. -/
theorem read_key_from_stdin_eq (stdin : List Byte) :
    read_key_from_stdin stdin =
      if stdin.length < 32 then
        .error "expected 32 key bytes from stdin, found fewer"
      else if 32 < stdin.length then
        .error "read too many bytes from stdin, expected 32"
      else .ok stdin := by
  unfold read_key_from_stdin KEY_LEN
  simp only [List.length_take]
  rcases lt_trichotomy stdin.length 32 with h | h | h
  · rw [if_pos (by omega), if_pos h]
  · rw [if_neg (by omega), if_neg (by omega), if_neg (by omega),
      if_neg (by omega), List.take_take]
    norm_num
    all_goals omega
  · rw [if_neg (by omega), if_pos (by omega), if_neg (by omega),
      if_pos (by omega)]

/-- C8: in keyed mode the key is read from standard input during argument
parsing, before any file hashing begins, and construction succeeds exactly
when standard input supplies exactly 32 raw bytes; fewer or more than 32
bytes is a fatal error that stops the run before any entry of the walk is
processed. -/
theorem c8_keyed_key_exactness (derive_key : Option (List Char))
    (stdin : List Byte) (entries : List (String × Except String (Nat → Byte)))
    (len : Nat) :
    ((base_hasher_of_args true derive_key stdin).isOk = true ↔
      stdin.length = 32) ∧
    (stdin.length = 32 →
      base_hasher_of_args true derive_key stdin = .ok (.Keyed stdin)) ∧
    (stdin.length ≠ 32 →
      ∃ e, main_run true derive_key stdin entries len = .error e) := by
  have hb : base_hasher_of_args true derive_key stdin =
      (match read_key_from_stdin stdin with
        | .error e => Except.error e
        | .ok key => Except.ok (HasherMode.Keyed key)) := rfl
  rw [read_key_from_stdin_eq] at hb
  have hm : ∀ e, base_hasher_of_args true derive_key stdin = .error e →
      main_run true derive_key stdin entries len = .error e := by
    intro e he
    unfold main_run
    rw [he]
  rcases lt_trichotomy stdin.length 32 with h | h | h
  · have hbe : base_hasher_of_args true derive_key stdin =
        .error "expected 32 key bytes from stdin, found fewer" := by
      rw [hb, if_pos h]
    refine ⟨?_, fun h32 => by omega, fun _ => ⟨_, hm _ hbe⟩⟩
    rw [hbe]
    simp only [Except.isOk, Except.toBool]
    constructor
    · intro hc
      cases hc
    · intro hc
      omega
  · have hbo : base_hasher_of_args true derive_key stdin =
        .ok (.Keyed stdin) := by
      rw [hb, if_neg (by omega), if_neg (by omega)]
    refine ⟨?_, fun _ => hbo, fun hne => absurd h hne⟩
    rw [hbo]
    simp [Except.isOk, Except.toBool, h]
  · have hbe : base_hasher_of_args true derive_key stdin =
        .error "read too many bytes from stdin, expected 32" := by
      rw [hb, if_neg (by omega), if_pos h]
    refine ⟨?_, fun h32 => by omega, fun _ => ⟨_, hm _ hbe⟩⟩
    rw [hbe]
    simp only [Except.isOk, Except.toBool]
    constructor
    · intro hc
      cases hc
    · intro hc
      omega

/-- Witness for C8 at a 32-byte standard input. -/
theorem c8_witness :
    base_hasher_of_args true none (List.replicate 32 0)
      = .ok (.Keyed (List.replicate 32 0)) :=
  (c8_keyed_key_exactness none (List.replicate 32 0) [] 32).2.1 (by simp)

/-- Distinct keys of an association list whose key list is `Nodup`
determine their values. -/
theorem nodup_keys_unique {B : List (String × String)}
    (hnd : (B.map Prod.fst).Nodup) {p h h' : String}
    (h1 : (p, h) ∈ B) (h2 : (p, h') ∈ B) : h = h' := by
  induction B with
  | nil => cases h1
  | cons b rest ih =>
    rw [List.map_cons, List.nodup_cons] at hnd
    rcases List.mem_cons.mp h1 with heq1 | h1'
    · rcases List.mem_cons.mp h2 with heq2 | h2'
      · rw [← heq1] at heq2
        injection heq2 with hfst hsnd
        exact hsnd.symm
      · exfalso
        apply hnd.1
        rw [← heq1]
        exact List.mem_map.mpr ⟨(p, h'), h2', rfl⟩
    · rcases List.mem_cons.mp h2 with heq2 | h2'
      · exfalso
        apply hnd.1
        rw [← heq2]
        exact List.mem_map.mpr ⟨(p, h), h1', rfl⟩
      · exact ih hnd.2 h1' h2'

/-- C6: in verify mode, for every key of manifest B (the check file): a
key absent from manifest A is reported `NO EXIST`; a key present with a
different digest string is reported `MISMATCH`; a key with an equal digest
is not reported at all; and every reported key is a key of B, so keys
present only in A are never reported. -/
theorem c6_verify_classification (A : String → Option String)
    (B : List (String × String)) (p h : String)
    (hnd : (B.map Prod.fst).Nodup) (hmem : (p, h) ∈ B) :
    (A p = none →
      (p, VerifyOutcome.NoExist) ∈ hash_verify_report A B) ∧
    (∀ ha, A p = some ha → ha ≠ h →
      (p, VerifyOutcome.Mismatch) ∈ hash_verify_report A B) ∧
    (A p = some h → ∀ o, (p, o) ∉ hash_verify_report A B) ∧
    (∀ q o, (q, o) ∈ hash_verify_report A B → ∃ hq, (q, hq) ∈ B) := by
  refine ⟨?_, ?_, ?_, ?_⟩
  · intro hA
    exact List.mem_filterMap.mpr ⟨(p, h), hmem, by simp [verify_classify, hA]⟩
  · intro ha hA hne
    refine List.mem_filterMap.mpr ⟨(p, h), hmem, ?_⟩
    simp [verify_classify, hA, hne]
  · intro hA o hmem'
    obtain ⟨⟨q, vq⟩, hqmem, hfeq⟩ := List.mem_filterMap.mp hmem'
    rcases hcl : verify_classify A q vq with - | o'
    · rw [hcl] at hfeq
      simp at hfeq
    · rw [hcl, Option.map_some'] at hfeq
      injection hfeq with hpair
      injection hpair with hq ho
      subst hq
      subst ho
      have hqh := nodup_keys_unique hnd hqmem hmem
      subst hqh
      rw [verify_classify, hA] at hcl
      simp at hcl
  · intro q o hqo
    obtain ⟨⟨q', vq⟩, hqmem, hfeq⟩ := List.mem_filterMap.mp hqo
    rcases hcl : verify_classify A q' vq with - | o'
    · rw [hcl] at hfeq
      simp at hfeq
    · rw [hcl, Option.map_some'] at hfeq
      injection hfeq with hpair
      injection hpair with hq ho
      exact ⟨vq, hq ▸ hqmem⟩

/-- Witness for C6: the spec's end-to-end scenario, at key `b.txt`. -/
theorem c6_witness :
    ("b.txt", VerifyOutcome.Mismatch) ∈ hash_verify_report
      (fun s => if s = "a.txt" then some "aa"
                else if s = "b.txt" then some "bb" else none)
      [("a.txt", "aa"), ("b.txt", "cc"), ("c.txt", "dd")] :=
  (c6_verify_classification _ _ "b.txt" "cc" (by simp) (by simp)).2.1
    "bb" (by simp) (by simp)

/-- Hex encoding distributes over append. -/
theorem hexEncode_append (a b : List Byte) :
    hexEncode (a ++ b) = hexEncode a ++ hexEncode b := by
  induction a with
  | nil => rfl
  | cons x xs ih => simp [hexEncode, ih]

/-- Hex encoding yields two characters per byte. -/
theorem hexEncode_length (l : List Byte) : (hexEncode l).length = 2 * l.length := by
  induction l with
  | nil => rfl
  | cons x xs ih =>
    simp only [hexEncode, hexByte, List.cons_append, List.nil_append,
      List.length_cons, ih]
    omega

/-- Taking `2 * k` characters of a hex encoding is encoding the first `k`
bytes. -/
theorem hexEncode_take (l : List Byte) (k : Nat) :
    (hexEncode l).take (2 * k) = hexEncode (l.take k) := by
  induction l generalizing k with
  | nil => simp [hexEncode]
  | cons x xs ih =>
    cases k with
    | zero => simp [hexEncode]
    | succ k2 =>
      rw [show 2 * (k2 + 1) = 2 * k2 + 1 + 1 from by ring]
      simp only [hexEncode, hexByte, List.cons_append, List.nil_append,
        List.take_succ_cons]
      rw [ih]

/-- The first `tb ≤ 64` bytes of a stream block. -/
theorem streamBlock_take (stream : Nat → Byte) (start tb : Nat) (h : tb ≤ 64) :
    (streamBlock stream start).take tb
      = (List.range tb).map (fun i => stream (start + i)) := by
  unfold streamBlock BLOCK_LEN
  rw [← List.map_take, List.take_range, show min tb 64 = tb from by omega]

/-- The loop of `write_hex_output` produces exactly the hex encoding of
the first `len` bytes of the stream from `start` on. -/
theorem write_hex_go_eq (stream : Nat → Byte) (len start : Nat) :
    write_hex_go stream start len
      = hexEncode ((List.range len).map (fun i => stream (start + i))) := by
  induction len using Nat.strong_induction_on generalizing start with
  | _ len ih =>
    rw [write_hex_go]
    by_cases h0 : len = 0
    · subst h0
      simp [hexEncode]
    · rw [if_neg h0, hexEncode_take,
        streamBlock_take stream start (min len BLOCK_LEN)
          (by simp only [BLOCK_LEN]; omega),
        ih (len - min len BLOCK_LEN) (by simp only [BLOCK_LEN]; omega),
        ← hexEncode_append]
      congr 1
      by_cases hlen : len ≤ 64
      · rw [show min len BLOCK_LEN = len from by simp only [BLOCK_LEN]; omega]
        simp
      · rw [show min len BLOCK_LEN = 64 from by simp only [BLOCK_LEN]; omega]
        have hsplit : List.range len
            = List.range 64 ++ (List.range (len - 64)).map (fun i => 64 + i) := by
          conv_lhs => rw [show len = 64 + (len - 64) from by omega]
          exact List.range_add 64 (len - 64)
        rw [hsplit, List.map_append, List.map_map]
        congr 1
        apply List.map_congr_left
        intro i _
        simp only [Function.comp_apply, BLOCK_LEN]
        congr 1
        omega

/-- Each value below 16 hex-encodes to a lowercase hex digit. -/
theorem hexDigit_lower {v : Nat} (hv : v < 16) : is_lower_hex (hexDigit v) = true := by
  interval_cases v <;> decide

/-- Every character of the hex encoding of genuine bytes is a lowercase
hex digit. -/
theorem mem_hexEncode_lower {l : List Byte} (hl : ∀ b ∈ l, b < 256) :
    ∀ c ∈ hexEncode l, is_lower_hex c = true := by
  induction l with
  | nil => simp [hexEncode]
  | cons b bs ih =>
    intro c hc
    have hb : b < 256 := hl b (List.mem_cons_self b bs)
    simp only [hexEncode, hexByte, List.cons_append, List.nil_append,
      List.mem_cons] at hc
    rcases hc with rfl | rfl | hc
    · exact hexDigit_lower (Nat.div_lt_of_lt_mul (lt_of_lt_of_le hb (by norm_num)))
    · exact hexDigit_lower (Nat.mod_lt _ (by norm_num))
    · exact ih (fun x hx => hl x (List.mem_cons_of_mem b hx)) c hc

/-- C10: for every requested output length `n` (including lengths other
than 32 and lengths that are not multiples of the 64-byte block size),
`write_hex_output` returns exactly `2 * n` characters, all lowercase hex
digits, encoding exactly the first `n` bytes of the extendable-output
reader's stream. -/
theorem c10_write_hex_output (n : Nat) (stream : Nat → Byte)
    (hs : ∀ i, stream i < 256) :
    (write_hex_output n stream).length = 2 * n ∧
    (∀ c ∈ write_hex_output n stream, is_lower_hex c = true) ∧
    write_hex_output n stream = hexEncode ((List.range n).map stream) := by
  have he : write_hex_output n stream = hexEncode ((List.range n).map stream) := by
    unfold write_hex_output
    rw [write_hex_go_eq]
    simp
  refine ⟨?_, ?_, he⟩
  · rw [he, hexEncode_length, List.length_map, List.length_range]
  · rw [he]
    refine mem_hexEncode_lower ?_
    intro b hb
    obtain ⟨i, -, rfl⟩ := List.mem_map.mp hb
    exact hs i

/-- Witness for C10 at `n = 3` over the stream of byte values `i % 256`. -/
theorem c10_witness :
    (write_hex_output 3 (fun i => i % 256)).length = 2 * 3 :=
  (c10_write_hex_output 3 (fun i => i % 256)
    (fun i => Nat.mod_lt i (by omega))).1

/-- An ASCII character occupies one UTF-8 byte. -/
theorem utf8Size_of_ascii {c : Char} (h : isAscii c = true) : c.utf8Size = 1 := by
  unfold isAscii at h
  rw [decide_eq_true_eq] at h
  unfold Char.utf8Size
  rw [if_pos]
  show c.val.toNat ≤ 127
  exact Nat.lt_succ_iff.mp h

/-- All-ASCII text has as many UTF-8 bytes as characters. -/
theorem utf8Len_eq_length_of_ascii {l : List Char} (h : l.all isAscii = true) :
    utf8Len l = l.length := by
  induction l with
  | nil => rfl
  | cons c cs ih =>
    rw [List.all_cons, Bool.and_eq_true] at h
    unfold utf8Len at ih ⊢
    rw [List.map_cons, List.sum_cons, utf8Size_of_ascii h.1, ih h.2,
      List.length_cons]
    omega

/-- `parse_body` fails on a line of at most `prefix_len` UTF-8 bytes. -/
theorem parse_body_err_short (e : Bool) (line : List Char)
    (h : utf8Len line ≤ prefix_len) : (parse_body e line).isOk = false := by
  unfold parse_body
  rw [if_pos h]
  rfl

/-- `parse_body` fails when the prefix is not all ASCII. -/
theorem parse_body_err_nonascii (e : Bool) (line : List Char)
    (h : (line.take prefix_len).all isAscii = false) :
    (parse_body e line).isOk = false := by
  by_cases h1 : utf8Len line ≤ prefix_len
  · exact parse_body_err_short e line h1
  · unfold parse_body
    rw [if_neg h1, if_pos h]
    rfl

/-- `parse_body` fails on a line of fewer than 67 characters: either its
byte length is short, or a character of the prefix is not ASCII. -/
theorem parse_body_err_short_chars (e : Bool) (line : List Char)
    (h : line.length < 67) : (parse_body e line).isOk = false := by
  by_cases h1 : utf8Len line ≤ prefix_len
  · exact parse_body_err_short e line h1
  · apply parse_body_err_nonascii
    cases hall : (line.take prefix_len).all isAscii with
    | false => rfl
    | true =>
      exfalso
      apply h1
      have h66 : prefix_len = 66 := rfl
      have htake : line.take prefix_len = line :=
        List.take_of_length_le (by omega)
      rw [htake] at hall
      rw [utf8Len_eq_length_of_ascii hall]
      omega

/-- `parse_body` fails when the two characters after the hash field are
not both spaces. -/
theorem parse_body_err_space (e : Bool) (line : List Char)
    (h : (line.drop hash_hex_len).take 2 ≠ [' ', ' ']) :
    (parse_body e line).isOk = false := by
  by_cases h1 : utf8Len line ≤ prefix_len
  · exact parse_body_err_short e line h1
  · by_cases h2 : (line.take prefix_len).all isAscii = false
    · exact parse_body_err_nonascii e line h2
    · unfold parse_body
      rw [if_neg h1, if_neg h2, if_pos h]
      rfl

/-- `parse_body` fails when the hash-hex decode fails. -/
theorem parse_body_err_decode (e : Bool) (line : List Char)
    (h : (decode_hex_pairs (line.take hash_hex_len)).isOk = false) :
    (parse_body e line).isOk = false := by
  by_cases h1 : utf8Len line ≤ prefix_len
  · exact parse_body_err_short e line h1
  · by_cases h2 : (line.take prefix_len).all isAscii = false
    · exact parse_body_err_nonascii e line h2
    · by_cases h3 : (line.drop hash_hex_len).take 2 ≠ [' ', ' ']
      · exact parse_body_err_space e line h3
      · unfold parse_body
        rw [if_neg h1, if_neg h2, if_neg h3]
        rcases hd : decode_hex_pairs (line.take hash_hex_len) with e1 | bs
        · rfl
        · rw [hd] at h
          simp [Except.isOk, Except.toBool] at h

/-- `parse_body true` fails when un-escaping fails. -/
theorem parse_body_err_unescape (line : List Char)
    (h : (unescape (line.drop prefix_len)).isOk = false) :
    (parse_body true line).isOk = false := by
  by_cases h1 : utf8Len line ≤ prefix_len
  · exact parse_body_err_short true line h1
  · by_cases h2 : (line.take prefix_len).all isAscii = false
    · exact parse_body_err_nonascii true line h2
    · by_cases h3 : (line.drop hash_hex_len).take 2 ≠ [' ', ' ']
      · exact parse_body_err_space true line h3
      · unfold parse_body
        rw [if_neg h1, if_neg h2, if_neg h3]
        rcases hd : decode_hex_pairs (line.take hash_hex_len) with e1 | bs
        · rfl
        · rcases hu : unescape (line.drop prefix_len) with e2 | u
          · rfl
          · rw [hu] at h
            simp [Except.isOk, Except.toBool] at h

/-- An uppercase hex digit is rejected by `hex_half_byte`. -/
theorem hex_half_byte_err_of_upper {c : Char} (h : is_upper_hex c = true) :
    (hex_half_byte c).isOk = false := by
  unfold is_upper_hex at h
  rw [Bool.and_eq_true, decide_eq_true_eq, decide_eq_true_eq] at h
  unfold hex_half_byte
  rw [if_neg (by omega), if_neg (by omega)]
  rfl

/-- The hash-hex decode fails whenever an uppercase hex digit occurs
anywhere in the character list. -/
theorem decode_hex_pairs_err_of_upper :
    ∀ l : List Char, (∃ c ∈ l, is_upper_hex c = true) →
      (decode_hex_pairs l).isOk = false
  | [], h => by simp at h
  | [c], h => by rfl
  | hi :: lo :: rest, h => by
    unfold decode_hex_pairs
    rcases he1 : hex_half_byte hi with e1 | v1
    · rfl
    · rcases he2 : hex_half_byte lo with e2 | v2
      · rfl
      · rcases hd : decode_hex_pairs rest with e3 | bs
        · rfl
        · exfalso
          rcases h with ⟨c, hc, hu⟩
          rcases List.mem_cons.mp hc with rfl | hc'
          · have := hex_half_byte_err_of_upper hu
            rw [he1] at this
            simp [Except.isOk, Except.toBool] at this
          · rcases List.mem_cons.mp hc' with rfl | hc''
            · have := hex_half_byte_err_of_upper hu
              rw [he2] at this
              simp [Except.isOk, Except.toBool] at this
            · have := decode_hex_pairs_err_of_upper rest ⟨c, hc'', hu⟩
              rw [hd] at this
              simp [Except.isOk, Except.toBool] at this

/-- `parse_body` fails when the 64-character hash field contains an
uppercase hex digit. -/
theorem parse_body_err_upper (e : Bool) (line : List Char)
    (h : ∃ c ∈ line.take 64, is_upper_hex c = true) :
    (parse_body e line).isOk = false := by
  apply parse_body_err_decode
  have h64 : hash_hex_len = 64 := rfl
  rw [h64]
  exact decode_hex_pairs_err_of_upper _ h

/-- Equation: the escape scan on a backslash followed by a character. -/
theorem scan_bad_escape_bs_pair (c2 : Char) (rest2 : List Char) :
    scan_bad_escape ('\\' :: c2 :: rest2)
      = if c2 = 'n' ∨ c2 = '\\' then scan_bad_escape rest2 else true := rfl

/-- Equation: the escape scan skips a non-backslash character. -/
theorem scan_bad_escape_cons_other {c : Char} (hc : c ≠ '\\')
    (rest : List Char) :
    scan_bad_escape (c :: rest) = scan_bad_escape rest := by
  conv_lhs => unfold scan_bad_escape
  rw [if_neg hc]

/-- Equation: `unescape` on a backslash followed by a character. -/
theorem unescape_bs_pair (c2 : Char) (rest2 : List Char) :
    unescape ('\\' :: c2 :: rest2)
      = if c2 = 'n' then
          (match unescape rest2 with
            | .error e => .error e
            | .ok u => .ok ('\n' :: u))
        else if c2 = '\\' then
          (match unescape rest2 with
            | .error e => .error e
            | .ok u => .ok ('\\' :: u))
        else .error "Invalid backslash escape" := rfl

/-- Equation: `unescape` copies a non-backslash character verbatim. -/
theorem unescape_cons_other {c : Char} (hc : c ≠ '\\') (rest : List Char) :
    unescape (c :: rest)
      = match unescape rest with
        | .error e => .error e
        | .ok u => .ok (c :: u) := by
  conv_lhs => unfold unescape
  rw [if_neg hc]

/-- The source's un-escaping fails wherever the left-to-right escape scan
fails. -/
theorem unescape_err_of_scan_bad (s : List Char) :
    scan_bad_escape s = true → (unescape s).isOk = false := by
  induction s using scan_bad_escape.induct with
  | case1 =>
    intro h
    simp [scan_bad_escape] at h
  | case2 =>
    intro h
    rfl
  | case3 c2 rest2 hor ih =>
    intro h
    rw [scan_bad_escape_bs_pair, if_pos hor] at h
    rw [unescape_bs_pair]
    by_cases hn : c2 = 'n'
    · rw [if_pos hn]
      rcases hu : unescape rest2 with e2 | u
      · rfl
      · have := ih h
        rw [hu] at this
        simp [Except.isOk, Except.toBool] at this
    · have hb : c2 = '\\' := hor.resolve_left hn
      rw [if_neg hn, if_pos hb]
      rcases hu : unescape rest2 with e2 | u
      · rfl
      · have := ih h
        rw [hu] at this
        simp [Except.isOk, Except.toBool] at this
  | case4 c2 rest2 hor =>
    intro h
    push_neg at hor
    rw [unescape_bs_pair, if_neg hor.1, if_neg hor.2]
    rfl
  | case5 c2 rest2 hc ih =>
    intro h
    rw [scan_bad_escape_cons_other hc] at h
    rw [unescape_cons_other hc]
    rcases hu : unescape rest2 with e2 | u
    · rfl
    · have := ih h
      rw [hu] at this
      simp [Except.isOk, Except.toBool] at this

/-- Equation: `parse_check_line` on a line trimming to nothing. -/
theorem parse_check_line_nil {l : List Char} (h : trimEndNewlines l = []) :
    parse_check_line l = .error "Empty line" := by
  unfold parse_check_line
  rw [h]

/-- Equation: `parse_check_line` on an escaped line. -/
theorem parse_check_line_escaped {l rest : List Char}
    (h : trimEndNewlines l = '\\' :: rest) :
    parse_check_line l = parse_body true rest := by
  unfold parse_check_line
  rw [h]
  show (if '\\' = '\\' then parse_body true rest
        else parse_body false ('\\' :: rest)) = parse_body true rest
  rw [if_pos rfl]

/-- Equation: `parse_check_line` on an unescaped line. -/
theorem parse_check_line_unescaped {l rest : List Char} {first : Char}
    (h : trimEndNewlines l = first :: rest) (hf : first ≠ '\\') :
    parse_check_line l = parse_body false (first :: rest) := by
  unfold parse_check_line
  rw [h]
  show (if first = '\\' then parse_body true rest
        else parse_body false (first :: rest)) = parse_body false (first :: rest)
  rw [if_neg hf]

/-- C4 (corrected, amended form): `parse_check_line` returns an error —
never a silently coerced result — for every line that, after trailing
newlines are trimmed, is empty; or has fewer than 67 characters after the
optional leading backslash is removed; or contains an uppercase hex digit
in the 64-character hash field; or does not have two space characters at
positions 65 and 66 (immediately after the hash field); or, when the line
is escaped, whose path text fails the left-to-right escape scan (a
backslash must be followed by `n` or a backslash and consumes it; a
backslash that is the final remaining character, or is followed by any
other character, is an error — a backslash consumed as the second half of
an escape pair does not start a new escape). -/
theorem c4_parse_check_line_rejects (line : List Char)
    (h : trimEndNewlines line = [] ∨
      (stripLeadingBackslash (trimEndNewlines line)).length < 67 ∨
      (∃ c ∈ (stripLeadingBackslash (trimEndNewlines line)).take 64,
        is_upper_hex c = true) ∨
      ((stripLeadingBackslash (trimEndNewlines line)).drop 64).take 2
        ≠ [' ', ' '] ∨
      ((trimEndNewlines line).head? = some '\\' ∧
        scan_bad_escape
          ((stripLeadingBackslash (trimEndNewlines line)).drop 66) = true)) :
    (parse_check_line line).isOk = false := by
  rcases htrim : trimEndNewlines line with - | ⟨first, rest⟩
  · rw [parse_check_line_nil htrim]
    rfl
  · rw [htrim] at h
    by_cases hf : first = '\\'
    · subst hf
      rw [parse_check_line_escaped htrim]
      have hstrip : stripLeadingBackslash ('\\' :: rest) = rest := rfl
      rw [hstrip] at h
      rcases h with h | h | h | h | h
      · cases h
      · exact parse_body_err_short_chars true rest h
      · exact parse_body_err_upper true rest h
      · exact parse_body_err_space true rest h
      · exact parse_body_err_unescape rest (unescape_err_of_scan_bad _ h.2)
    · rw [parse_check_line_unescaped htrim hf]
      have hstrip : stripLeadingBackslash (first :: rest) = first :: rest := by
        show (if first = '\\' then rest else first :: rest) = first :: rest
        rw [if_neg hf]
      rw [hstrip] at h
      rcases h with h | h | h | h | h
      · cases h
      · exact parse_body_err_short_chars false (first :: rest) h
      · exact parse_body_err_upper false (first :: rest) h
      · exact parse_body_err_space false (first :: rest) h
      · exfalso
        rw [List.head?_cons] at h
        have hh := h.1
        injection hh with hh2
        exact hf hh2

/-- Witness for C4's amended theorem: a line whose hash field is
uppercase hex is rejected. -/
theorem c4_witness :
    (parse_check_line (List.replicate 64 'A' ++ [' ', ' ', 'x'])).isOk
      = false :=
  c4_parse_check_line_rejects _ (Or.inr (Or.inr (Or.inl (by decide))))

/-- C4 counterexample to the claim as stated: the line
`\` + 64 `0`s + two spaces + `\\` is escaped and its path text `\\` does
contain a backslash that is the last character of the line, so the claim
as written demands an error; but the left-to-right escape scan consumes
the pair `\\` as one escaped backslash, and `parse_check_line` accepts
the line, returning path `\`. -/
theorem c4_counterexample :
    literal_bad_escape ['\\', '\\'] = true ∧
    parse_check_line ('\\' :: (List.replicate 64 '0' ++ [' ', ' ', '\\', '\\']))
      = .ok ⟨['\\', '\\'], true, ['\\'], List.replicate 32 0⟩ := by
  constructor
  · decide
  · decide

/-- An `ok` result of `parse_body` passed the safety filter. -/
theorem parse_body_ok_check {e : Bool} {line : List Char}
    {r : ParsedCheckLine} (h : parse_body e line = .ok r) :
    check_for_invalid_characters r.file_path = .ok () := by
  unfold parse_body at h
  split at h
  · cases h
  · split at h
    · cases h
    · split at h
      · cases h
      · split at h
        · cases h
        · split at h
          · cases h
          · split at h
            · cases h
            · rename_i a heq
              injection h with h2
              rw [← h2]
              cases a
              exact heq

/-- C5: a line that `parse_check_line` accepts never has a null character
or the Unicode replacement character in its resolved path text (after
un-escaping when the line was escaped); any line whose resolved path
contains one of them is rejected by the safety filter. -/
theorem c5_safety_filter (line : List Char) (r : ParsedCheckLine)
    (h : parse_check_line line = .ok r) :
    r.file_path.contains (Char.ofNat 0) = false ∧
    r.file_path.contains replacementChar = false := by
  have hchk : check_for_invalid_characters r.file_path = .ok () := by
    rcases htrim : trimEndNewlines line with - | ⟨first, rest⟩
    · rw [parse_check_line_nil htrim] at h
      cases h
    · by_cases hf : first = '\\'
      · subst hf
        rw [parse_check_line_escaped htrim] at h
        exact parse_body_ok_check h
      · rw [parse_check_line_unescaped htrim hf] at h
        exact parse_body_ok_check h
  unfold check_for_invalid_characters at hchk
  split at hchk
  · cases hchk
  · rename_i h1
    split at hchk
    · cases hchk
    · rename_i h2
      split at hchk
      · cases hchk
      · rw [Bool.not_eq_true] at h1 h2
        exact ⟨h1, h2⟩

/-- Witness for C5 at a concrete accepted line with path `x`. -/
theorem c5_witness :
    (['x'] : List Char).contains (Char.ofNat 0) = false ∧
    (['x'] : List Char).contains replacementChar = false :=
  c5_safety_filter (List.replicate 64 '0' ++ [' ', ' ', 'x'])
    ⟨['x'], false, ['x'], List.replicate 32 0⟩ (by decide)

/-- C2 (code bug): with the checkfile encoder modelled from the spec
(`encode_check_line`; the source has no emit function, see
`filepath_to_string`), decoding an encoded line must return exactly the
original digest and path.  The hex decoding slip of `hex_half_byte`
(see C1) breaks the round trip for every digest whose lowercase hex
encoding contains a letter: the digest byte 0xaa = 170 encodes to `aa`
and decodes back to 86, so the parsed digest differs from the encoded
one.  (The path text itself does round-trip here.) -/
theorem c2_roundtrip_failure :
    parse_check_line (encode_check_line (170 :: List.replicate 31 0) ['f'])
      = .ok ⟨['f'], false, ['f'], 86 :: List.replicate 31 0⟩ ∧
    (86 : Byte) ≠ 170 := by
  constructor
  · decide
  · decide

end Dirhash
